import Mathlib

/-!
Shallow embedding of the two tools of this repository:

* `tools/pack_atlases.py` — greedy shelf (row) packing of named sprites into
  one or more atlases (`pack_atlas`), plus the manifest read-modify-write of
  `main` (`mainManifest`).
* `sprite_sheet_batch.py` — fixed-grid sheet building (`build_sheet`) and the
  effect order of `main` (`sheetBatchMain`).

Image pixel data is irrelevant to every claim here, so a sprite is modelled by
its key and integer dimensions, an atlas by its canvas size and rectangle map,
and the sheet builder by the paste origins it computes.
-/

namespace PackAtlases

/-- A sprite entry: key together with pixel width and height
(`img.size` of the loaded image in `pack_atlas`). -/
abbrev Entry := String × Nat × Nat

/-- Width of an entry. -/
def eW (e : Entry) : Nat := e.2.1

/-- Height of an entry. -/
def eH (e : Entry) : Nat := e.2.2

/-- The sort order used at line 44 of `pack_atlases.py`:
`sorted(images.keys(), key=lambda k: (-height, -width))`.
`entLe a b` holds when `a` may come before `b`: taller first,
ties broken by larger width first. -/
def entLe (a b : Entry) : Bool := eH b < eH a || (eH b == eH a && eW b ≤ eW a)

/-- Insert `x` into a list sorted by `entLe`, after every element `y`
with `entLe y x` (so insertion is stable: `x` lands after earlier
elements of equal key). -/
def sInsert (x : Entry) : List Entry → List Entry
  | [] => [x]
  | y :: ys => if entLe y x then y :: sInsert x ys else x :: y :: ys

/-- Python's `sorted` at line 44 is a stable sort by the key
`(-height, -width)`.  A stable sort is determined uniquely by its
comparator, so this stable insertion sort is the faithful model; the
sortedness, permutation and stability properties are proved below. -/
def sortEntries (l : List Entry) : List Entry :=
  l.foldl (fun acc x => sInsert x acc) []

/-- A placement rectangle `{x, y, w, h}` as built at lines 72 and 88. -/
structure Rect where
  x : Nat
  y : Nat
  w : Nat
  h : Nat
deriving DecidableEq, Repr

/-- Two axis-aligned rectangles (half-open boxes `[x, x+w) × [y, y+h)`)
have empty intersection. -/
def rectsDisjoint (a b : Rect) : Prop :=
  a.x + a.w ≤ b.x ∨ b.x + b.w ≤ a.x ∨ a.y + a.h ≤ b.y ∨ b.y + b.h ≤ a.y

instance (a b : Rect) : Decidable (rectsDisjoint a b) := by
  unfold rectsDisjoint; infer_instance

/-- The mutable state of one pass of `pack_atlas`'s while-loop body
(lines 50–56): the rectangle map, the cursor, the running bounding box,
the `placed` list, plus the keys warned about at line 63. -/
structure St where
  rects : List (String × Rect)
  curX : Nat
  curY : Nat
  rowHeight : Nat
  atlasWidth : Nat
  atlasHeight : Nat
  placed : List String
  warnings : List String
deriving DecidableEq, Repr

/-- The state at the top of each pass (lines 50–56). -/
def St.init : St := ⟨[], 0, 0, 0, 0, 0, [], []⟩

/-- One iteration of the `for key in remaining` loop (lines 58–93) at a
given maximum atlas size. -/
def step (maxSize : Nat) (s : St) (e : Entry) : St :=
  let k := e.1
  let w := eW e
  let h := eH e
  if maxSize < w ∨ maxSize < h then
    -- lines 62–65: warn, mark placed without a rectangle, continue
    { s with placed := s.placed ++ [k], warnings := s.warnings ++ [k] }
  else if s.curX + w ≤ maxSize then
    if maxSize < s.curY + h then
      -- lines 69–71: does not fit vertically, skip to next atlas
      s
    else
      -- lines 72–77: place in the current row
      { s with
        rects := s.rects ++ [(k, ⟨s.curX, s.curY, w, h⟩)]
        rowHeight := max s.rowHeight h
        curX := s.curX + w
        atlasWidth := max s.atlasWidth (s.curX + w)
        atlasHeight := max s.atlasHeight (s.curY + max s.rowHeight h)
        placed := s.placed ++ [k] }
  else
    -- lines 78–82: start a new row
    let cy := s.curY + s.rowHeight
    if maxSize < cy + h then
      -- lines 84–86: atlas full, defer (cursor state persists)
      { s with curX := 0, curY := cy, rowHeight := 0 }
    else
      -- lines 88–93: place at the start of the new row
      { s with
        rects := s.rects ++ [(k, ⟨0, cy, w, h⟩)]
        rowHeight := max 0 h
        curX := 0 + w
        curY := cy
        atlasWidth := max s.atlasWidth (0 + w)
        atlasHeight := max s.atlasHeight (cy + max 0 h)
        placed := s.placed ++ [k] }

/-- One full pass of the while-loop body over the remaining sprites. -/
def runPass (maxSize : Nat) (l : List Entry) : St := l.foldl (step maxSize) St.init

/-- One produced atlas: canvas size (the running bounding box used at
line 100) and the rectangle map. -/
structure Atlas where
  width : Nat
  height : Nat
  rects : List (String × Rect)
deriving DecidableEq, Repr

/-- Result of `pack_atlas`: the atlas list, whether the
`"Could not place any sprites"` error branch (lines 95–97) was taken,
and the keys warned about as oversize. -/
structure PackResult where
  atlases : List Atlas
  error : Bool
  warnings : List String
deriving DecidableEq, Repr

/-- The `while remaining:` loop of lines 49–105.  The fuel argument only
bounds the number of passes; `packAtlas` supplies `remaining.length`,
which is shown sufficient (the error flag is proved always false). -/
def packLoop (maxSize : Nat) : Nat → List Entry → PackResult
  | _, [] => ⟨[], false, []⟩
  | 0, _ :: _ => ⟨[], true, []⟩
  | fuel + 1, e :: rest =>
    let s := runPass maxSize (e :: rest)
    if s.placed.isEmpty then
      ⟨[], true, s.warnings⟩
    else
      let r := packLoop maxSize fuel
        ((e :: rest).filter (fun x => !s.placed.contains x.1))
      ⟨⟨s.atlasWidth, s.atlasHeight, s.rects⟩ :: r.atlases, r.error,
        s.warnings ++ r.warnings⟩

/-- `pack_atlas` with the maximum atlas size as a parameter (the source
uses the module constant `MAX_ATLAS_SIZE` throughout). -/
def packAtlas (maxSize : Nat) (sprites : List Entry) : PackResult :=
  let sorted := sortEntries sprites
  packLoop maxSize sorted.length sorted

/-- Line 21: `MAX_ATLAS_SIZE = 4096`. -/
def MAX_ATLAS_SIZE : Nat := 4096

/-- `pack_atlas` as in the source, at `MAX_ATLAS_SIZE`. -/
def pack_atlas (sprites : List Entry) : PackResult :=
  packAtlas MAX_ATLAS_SIZE sprites

/-- Maximum of `x + w` over a rectangle map (0 when empty). -/
def maxRight (rs : List (String × Rect)) : Nat :=
  (rs.map (fun r => r.2.x + r.2.w)).foldr max 0

/-- Maximum of `y + h` over a rectangle map (0 when empty). -/
def maxBottom (rs : List (String × Rect)) : Nat :=
  (rs.map (fun r => r.2.y + r.2.h)).foldr max 0

/-- How many rectangles across the whole atlas set carry the key `k`. -/
def keyCount (k : String) (r : PackResult) : Nat :=
  (r.atlases.map (fun a => (a.rects.map Prod.fst).count k)).sum

/-- No two rectangles of a rectangle map intersect. -/
def noOverlap (rs : List (String × Rect)) : Prop :=
  rs.Pairwise (fun p q => rectsDisjoint p.2 q.2)

/-- The invariant maintained by `step` across one packing pass:
geometry of the placed rectangles relative to the cursor, and the
bounding-box bookkeeping. -/
structure PassInv (m : Nat) (s : St) : Prop where
  bot : ∀ p ∈ s.rects, p.2.y + p.2.h ≤ s.curY + s.rowHeight
  row : ∀ p ∈ s.rects, 0 < p.2.h → p.2.y = s.curY → p.2.x + p.2.w ≤ s.curX
  above : ∀ p ∈ s.rects, p.2.y < s.curY → p.2.y + p.2.h ≤ s.curY
  ytop : ∀ p ∈ s.rects, p.2.y ≤ s.curY
  disj : noOverlap s.rects
  fit : s.curY + s.rowHeight ≤ m
  bbW : s.atlasWidth = maxRight s.rects
  bbH : s.atlasHeight = maxBottom s.rects
  bbWle : s.atlasWidth ≤ m
  bbHle : s.atlasHeight ≤ m
  bbHge : s.curY + s.rowHeight ≤ s.atlasHeight

/-- Python dict assignment `m[k] = v` on a manifest modelled as an
association list in insertion order: overwrite in place when the key is
present, append otherwise. -/
def dictSet {V : Type} (m : List (String × V)) (k : String) (v : V) :
    List (String × V) :=
  if m.any (fun p => p.1 = k) then
    m.map (fun p => if p.1 = k then (k, v) else p)
  else
    m ++ [(k, v)]

/-- Lines 163–168 of `main`: for each category, when `pack_category`
returned an entry, set `manifest[f"{category}_atlas"]`; a category that
returned `None` (missing directory or no sprites) changes nothing. -/
def mainManifest {V : Type} (manifest : List (String × V))
    (results : List (String × Option V)) : List (String × V) :=
  results.foldl
    (fun m cr =>
      match cr.2 with
      | none => m
      | some v => dictSet m (cr.1 ++ "_atlas") v)
    manifest

end PackAtlases

namespace SpriteSheetBatch

/-- The sheet produced by `build_sheet` (lines 48–71): canvas dimensions,
fill color, and the paste origin of each image in batch order. -/
structure Sheet where
  width : Nat
  height : Nat
  fill : Nat × Nat × Nat × Nat
  placements : List (Nat × Nat)
deriving DecidableEq, Repr

/-- `build_sheet` for a batch of `numImages` images of common tile size
`tileW × tileH`: canvas `columns*tileW × rows*tileH` filled with
`fillColor`; image `idx` pasted at `(idx // rows * tileW, idx % rows * tileH)`
(lines 58–68). -/
def build_sheet (numImages tileW tileH columns rows : Nat)
    (fillColor : Nat × Nat × Nat × Nat) : Sheet :=
  { width := columns * tileW
    height := rows * tileH
    fill := fillColor
    placements :=
      (List.range numImages).map
        (fun idx => (idx / rows * tileW, idx % rows * tileH)) }

/-- A file written by `main` of `sprite_sheet_batch.py`. -/
inductive FileWrite where
  | convertedPng (idx : Nat)
  | sheet (idx : Nat)
deriving DecidableEq, Repr

/-- Observable outcome of one invocation of `main`: the files written,
in order, and whether the process exited non-zero (`SystemExit` or an
uncaught exception). -/
structure RunResult where
  writes : List FileWrite
  exitError : Bool
deriving DecidableEq, Repr

/-- Whether a file write is a sprite-sheet write. -/
def isSheetWrite : FileWrite → Bool
  | .sheet _ => true
  | .convertedPng _ => false

/-- The effect order of `main` (lines 122–156): check the input directory,
collect images, convert them all to PNG (writing one file each), only then
check `columns * rows >= batch_size`, then build one sheet per batch.
`batchSize = 0` reaches `math.ceil(len/0)`, an uncaught division error. -/
def sheetBatchMain (inputDirOk : Bool) (numImages batchSize columns rows : Nat) :
    RunResult :=
  if !inputDirOk then ⟨[], true⟩
  else if numImages = 0 then ⟨[], true⟩
  else
    let conv := (List.range numImages).map FileWrite.convertedPng
    if columns * rows < batchSize then ⟨conv, true⟩
    else if batchSize = 0 then ⟨conv, true⟩
    else
      let sheetCount := (numImages + batchSize - 1) / batchSize
      ⟨conv ++ (List.range sheetCount).map FileWrite.sheet, false⟩

end SpriteSheetBatch

namespace PackAtlases

/-! ### Properties of the sort (line 44) -/

theorem entLe_total (a b : Entry) : entLe a b = true ∨ entLe b a = true := by
  simp only [entLe, Bool.or_eq_true, Bool.and_eq_true, decide_eq_true_eq, beq_iff_eq]
  omega

theorem entLe_trans {a b c : Entry} (h1 : entLe a b = true) (h2 : entLe b c = true) :
    entLe a c = true := by
  simp only [entLe, Bool.or_eq_true, Bool.and_eq_true, decide_eq_true_eq, beq_iff_eq] at *
  omega

theorem entLe_of_eq_key {a b : Entry} (hh : eH a = eH b) (hw : eW a = eW b) :
    entLe a b = true := by
  simp only [entLe, Bool.or_eq_true, Bool.and_eq_true, decide_eq_true_eq, beq_iff_eq]
  omega

/-- `sInsert` inserts the new element somewhere in the list. -/
theorem sInsert_split (x : Entry) (l : List Entry) :
    ∃ l₁ l₂, l = l₁ ++ l₂ ∧ sInsert x l = l₁ ++ x :: l₂ ∧
      ∀ y ∈ l₁, entLe y x = true := by
  induction l with
  | nil => exact ⟨[], [], rfl, rfl, by simp⟩
  | cons y ys ih =>
    by_cases h : entLe y x = true
    · obtain ⟨l₁, l₂, he, hi, hle⟩ := ih
      refine ⟨y :: l₁, l₂, by simp [he], ?_, ?_⟩
      · simp only [sInsert, if_pos h, hi, List.cons_append]
      · intro z hz
        simp only [List.mem_cons] at hz
        rcases hz with rfl | hz
        · exact h
        · exact hle z hz
    · refine ⟨[], y :: ys, rfl, ?_, by simp⟩
      simp only [sInsert, if_neg h, List.nil_append]

theorem sInsert_perm (x : Entry) (l : List Entry) : (sInsert x l).Perm (x :: l) := by
  obtain ⟨l₁, l₂, he, hi, -⟩ := sInsert_split x l
  rw [hi, he]
  exact List.perm_middle

theorem mem_sInsert {x z : Entry} {l : List Entry} (h : z ∈ sInsert x l) :
    z = x ∨ z ∈ l := by
  have := (sInsert_perm x l).mem_iff.mp h
  simpa using this

theorem sInsert_pairwise {x : Entry} {l : List Entry}
    (h : l.Pairwise (fun a b => entLe a b = true)) :
    (sInsert x l).Pairwise (fun a b => entLe a b = true) := by
  induction l with
  | nil => simp [sInsert]
  | cons y ys ih =>
    rcases h with _ | ⟨hy, hys⟩
    by_cases hle : entLe y x = true
    · rw [sInsert, if_pos hle]
      refine List.Pairwise.cons ?_ (ih hys)
      intro z hz
      rcases mem_sInsert hz with rfl | hz
      · exact hle
      · exact hy z hz
    · rw [sInsert, if_neg hle]
      have hxy : entLe x y = true := (entLe_total x y).resolve_right (by exact hle)
      refine List.Pairwise.cons ?_ (List.Pairwise.cons hy hys)
      intro z hz
      simp only [List.mem_cons] at hz
      rcases hz with rfl | hz
      · exact hxy
      · exact entLe_trans hxy (hy z hz)

/-- Stability of one insertion: for a "same sort key" class predicate `p`,
inserting an element of the class appends it to the class's subsequence. -/
theorem filter_sInsert_pos {H W : Nat} {x : Entry} {l : List Entry}
    (hs : l.Pairwise (fun a b => entLe a b = true))
    (hx : eH x = H ∧ eW x = W) :
    (sInsert x l).filter (fun e => eH e == H && eW e == W)
      = l.filter (fun e => eH e == H && eW e == W) ++ [x] := by
  have hpx : (eH x == H && eW x == W) = true := by
    simp [hx.1, hx.2]
  induction l with
  | nil => simp [sInsert, List.filter_cons, hpx]
  | cons y ys ih =>
    rcases hs with _ | ⟨hy, hys⟩
    by_cases hle : entLe y x = true
    · rw [sInsert, if_pos hle, List.filter_cons, List.filter_cons]
      by_cases hpy : (eH y == H && eW y == W) = true
      · simp [hpy, ih hys]
      · simp [hpy, ih hys]
    · rw [sInsert, if_neg hle]
      -- nothing below the insertion point is in the class of `x`:
      -- a class member `z` would give `entLe y x` by transitivity.
      have hfilter : (y :: ys).filter (fun e => eH e == H && eW e == W) = [] := by
        rw [List.filter_eq_nil_iff]
        intro z hz hpz
        simp only [Bool.and_eq_true, beq_iff_eq] at hpz
        have hzx : entLe z x = true :=
          entLe_of_eq_key (by omega) (by omega)
        have hyz : entLe y z = true := by
          simp only [List.mem_cons] at hz
          rcases hz with rfl | hz
          · exact entLe_of_eq_key rfl rfl
          · exact hy z hz
        exact hle (entLe_trans hyz hzx)
      have hcons : (x :: y :: ys).filter (fun e => eH e == H && eW e == W)
          = x :: (y :: ys).filter (fun e => eH e == H && eW e == W) := by
        rw [List.filter_cons]
        simp [hpx]
      rw [hcons, hfilter]
      simp

theorem filter_sInsert_neg {H W : Nat} {x : Entry} {l : List Entry}
    (hx : ¬ (eH x = H ∧ eW x = W)) :
    (sInsert x l).filter (fun e => eH e == H && eW e == W)
      = l.filter (fun e => eH e == H && eW e == W) := by
  have hpx : (eH x == H && eW x == W) = false := by
    rcases Decidable.em (eH x = H) with h1 | h1 <;> simp_all
  obtain ⟨l₁, l₂, he, hi, -⟩ := sInsert_split x l
  rw [hi, he, List.filter_append, List.filter_append, List.filter_cons, hpx]
  simp

theorem foldl_sInsert_perm (l : List Entry) :
    ∀ acc : List Entry, (l.foldl (fun acc x => sInsert x acc) acc).Perm (acc ++ l) := by
  induction l with
  | nil => simp
  | cons x xs ih =>
    intro acc
    rw [List.foldl_cons]
    have h1 := ih (sInsert x acc)
    have h2 : (sInsert x acc ++ xs).Perm ((x :: acc) ++ xs) :=
      (sInsert_perm x acc).append_right xs
    have h3 : ((x :: acc) ++ xs).Perm (acc ++ x :: xs) := by
      simpa using List.perm_middle.symm
    exact (h1.trans h2).trans h3

theorem foldl_sInsert_pairwise (l : List Entry) :
    ∀ acc : List Entry, acc.Pairwise (fun a b => entLe a b = true) →
      (l.foldl (fun acc x => sInsert x acc) acc).Pairwise (fun a b => entLe a b = true) := by
  induction l with
  | nil => intro acc h; exact h
  | cons x xs ih =>
    intro acc h
    exact ih (sInsert x acc) (sInsert_pairwise h)

theorem foldl_sInsert_filter (H W : Nat) (l : List Entry) :
    ∀ acc : List Entry, acc.Pairwise (fun a b => entLe a b = true) →
      (l.foldl (fun acc x => sInsert x acc) acc).filter (fun e => eH e == H && eW e == W)
        = acc.filter (fun e => eH e == H && eW e == W)
          ++ l.filter (fun e => eH e == H && eW e == W) := by
  induction l with
  | nil => simp
  | cons x xs ih =>
    intro acc h
    have hstep := ih (sInsert x acc) (sInsert_pairwise h)
    rw [List.foldl_cons, hstep]
    by_cases hx : eH x = H ∧ eW x = W
    · rw [filter_sInsert_pos h hx]
      have hpx : (eH x == H && eW x == W) = true := by simp [hx.1, hx.2]
      simp [List.filter_cons, hpx]
    · rw [filter_sInsert_neg hx]
      have hpx : (eH x == H && eW x == W) = false := by
        rcases Decidable.em (eH x = H) with h1 | h1 <;> simp_all
      simp [List.filter_cons, hpx]

theorem sortEntries_perm (l : List Entry) : (sortEntries l).Perm l := by
  simpa using foldl_sInsert_perm l []

theorem sortEntries_pairwise (l : List Entry) :
    (sortEntries l).Pairwise (fun a b => entLe a b = true) :=
  foldl_sInsert_pairwise l [] (List.Pairwise.nil)

theorem sortEntries_filter (l : List Entry) (H W : Nat) :
    (sortEntries l).filter (fun e => eH e == H && eW e == W)
      = l.filter (fun e => eH e == H && eW e == W) := by
  simpa using foldl_sInsert_filter H W l [] (List.Pairwise.nil)

end PackAtlases

namespace PackAtlases

/-- Claim C5: `pack_atlas` processes sprites in the order produced by a
stable sort by descending height, then descending width, preserving the
original enumeration order on full ties: the processing order is a
permutation of the input that is pairwise sorted by that ordering, sprites
with equal height and width keep their original relative order, and
`packAtlas` folds over exactly this order. -/
theorem pack_atlas_processing_order :
    ∀ l : List Entry,
      (sortEntries l).Perm l ∧
      (sortEntries l).Pairwise (fun a b =>
        eH b < eH a ∨ (eH a = eH b ∧ eW b ≤ eW a)) ∧
      (∀ H W : Nat,
        (sortEntries l).filter (fun e => eH e == H && eW e == W)
          = l.filter (fun e => eH e == H && eW e == W)) ∧
      ∀ m : Nat, packAtlas m l = packLoop m (sortEntries l).length (sortEntries l) := by
  intro l
  refine ⟨sortEntries_perm l, ?_, sortEntries_filter l, fun _ => rfl⟩
  refine (sortEntries_pairwise l).imp ?_
  intro a b h
  simp only [entLe, Bool.or_eq_true, Bool.and_eq_true, decide_eq_true_eq, beq_iff_eq] at h
  omega

/-! ### The five branches of `step` -/

theorem step_oversize {m : Nat} {s : St} {e : Entry} (h : m < eW e ∨ m < eH e) :
    step m s e = { s with placed := s.placed ++ [e.1], warnings := s.warnings ++ [e.1] } := by
  simp [step, h]

theorem step_skip_vert {m : Nat} {s : St} {e : Entry}
    (h1 : ¬ (m < eW e ∨ m < eH e)) (h2 : s.curX + eW e ≤ m) (h3 : m < s.curY + eH e) :
    step m s e = s := by
  simp [step, h1, h2, h3]

theorem step_fit_row {m : Nat} {s : St} {e : Entry}
    (h1 : ¬ (m < eW e ∨ m < eH e)) (h2 : s.curX + eW e ≤ m) (h3 : ¬ m < s.curY + eH e) :
    step m s e =
      { s with
        rects := s.rects ++ [(e.1, ⟨s.curX, s.curY, eW e, eH e⟩)]
        rowHeight := max s.rowHeight (eH e)
        curX := s.curX + eW e
        atlasWidth := max s.atlasWidth (s.curX + eW e)
        atlasHeight := max s.atlasHeight (s.curY + max s.rowHeight (eH e))
        placed := s.placed ++ [e.1] } := by
  simp [step, h1, h2, h3]

theorem step_newrow_defer {m : Nat} {s : St} {e : Entry}
    (h1 : ¬ (m < eW e ∨ m < eH e)) (h2 : ¬ s.curX + eW e ≤ m)
    (h3 : m < s.curY + s.rowHeight + eH e) :
    step m s e = { s with curX := 0, curY := s.curY + s.rowHeight, rowHeight := 0 } := by
  simp [step, h1, h2, h3]

theorem step_newrow_place {m : Nat} {s : St} {e : Entry}
    (h1 : ¬ (m < eW e ∨ m < eH e)) (h2 : ¬ s.curX + eW e ≤ m)
    (h3 : ¬ m < s.curY + s.rowHeight + eH e) :
    step m s e =
      { s with
        rects := s.rects ++ [(e.1, ⟨0, s.curY + s.rowHeight, eW e, eH e⟩)]
        rowHeight := max 0 (eH e)
        curX := 0 + eW e
        curY := s.curY + s.rowHeight
        atlasWidth := max s.atlasWidth (0 + eW e)
        atlasHeight := max s.atlasHeight (s.curY + s.rowHeight + max 0 (eH e))
        placed := s.placed ++ [e.1] } := by
  simp [step, h1, h2, h3]

end PackAtlases

namespace PackAtlases

/-! ### Bounding-box helpers -/

theorem foldr_max_eq (xs : List Nat) (v : Nat) :
    xs.foldr max v = max (xs.foldr max 0) v := by
  induction xs with
  | nil => simp
  | cons a t ih => simp only [List.foldr_cons, ih]; omega

theorem maxRight_append (l : List (String × Rect)) (p : String × Rect) :
    maxRight (l ++ [p]) = max (maxRight l) (p.2.x + p.2.w) := by
  unfold maxRight
  rw [List.map_append, List.foldr_append]
  simp only [List.map_cons, List.map_nil, List.foldr_cons, List.foldr_nil]
  rw [foldr_max_eq]
  omega

theorem maxBottom_append (l : List (String × Rect)) (p : String × Rect) :
    maxBottom (l ++ [p]) = max (maxBottom l) (p.2.y + p.2.h) := by
  unfold maxBottom
  rw [List.map_append, List.foldr_append]
  simp only [List.map_cons, List.map_nil, List.foldr_cons, List.foldr_nil]
  rw [foldr_max_eq]
  omega

theorem noOverlap_append {l : List (String × Rect)} {p : String × Rect}
    (h : noOverlap l) (hall : ∀ q ∈ l, rectsDisjoint q.2 p.2) :
    noOverlap (l ++ [p]) := by
  unfold noOverlap at *
  rw [List.pairwise_append]
  exact ⟨h, List.pairwise_singleton _ _, fun a ha b hb => by
    rcases List.mem_singleton.mp hb with rfl
    exact hall a ha⟩

/-! ### Preservation of the pass invariant -/

theorem passInv_init (m : Nat) : PassInv m St.init := by
  refine ⟨?_, ?_, ?_, ?_, ?_, ?_, ?_, ?_, ?_, ?_, ?_⟩ <;>
    simp [St.init, noOverlap, maxRight, maxBottom]

theorem step_passInv {m : Nat} {s : St} (e : Entry) (hs : PassInv m s) :
    PassInv m (step m s e) := by
  obtain ⟨bot, row, above, ytop, disj, fit, bbW, bbH, bbWle, bbHle, bbHge⟩ := hs
  by_cases h1 : m < eW e ∨ m < eH e
  · rw [step_oversize h1]
    exact ⟨bot, row, above, ytop, disj, fit, bbW, bbH, bbWle, bbHle, bbHge⟩
  · have hw : eW e ≤ m := by omega
    have hh : eH e ≤ m := by omega
    by_cases h2 : s.curX + eW e ≤ m
    · by_cases h3 : m < s.curY + eH e
      · rw [step_skip_vert h1 h2 h3]
        exact ⟨bot, row, above, ytop, disj, fit, bbW, bbH, bbWle, bbHle, bbHge⟩
      · rw [step_fit_row h1 h2 h3]
        have hpmem : ∀ p ∈ s.rects ++ [(e.1, (⟨s.curX, s.curY, eW e, eH e⟩ : Rect))],
            p ∈ s.rects ∨ p = (e.1, (⟨s.curX, s.curY, eW e, eH e⟩ : Rect)) := by
          intro p hp
          rcases List.mem_append.mp hp with hp | hp
          · exact Or.inl hp
          · exact Or.inr (List.mem_singleton.mp hp)
        refine ⟨?_, ?_, ?_, ?_, ?_, ?_, ?_, ?_, ?_, ?_, ?_⟩ <;> dsimp only
        · intro p hp
          rcases hpmem p hp with hp | rfl
          · have := bot p hp; omega
          · dsimp only; omega
        · intro p hp h0 hy
          rcases hpmem p hp with hp | rfl
          · have := row p hp h0 hy; omega
          · dsimp only; omega
        · intro p hp hy
          rcases hpmem p hp with hp | rfl
          · exact above p hp hy
          · dsimp only at hy ⊢; omega
        · intro p hp
          rcases hpmem p hp with hp | rfl
          · exact ytop p hp
          · dsimp only; omega
        · refine noOverlap_append disj ?_
          intro q hq
          rcases Nat.lt_or_ge q.2.y s.curY with hy | hy
          · have := above q hq hy
            unfold rectsDisjoint
            dsimp only
            omega
          · have hyq : q.2.y = s.curY := Nat.le_antisymm (ytop q hq) hy
            rcases Nat.eq_zero_or_pos q.2.h with h0 | h0
            · unfold rectsDisjoint
              dsimp only
              omega
            · have := row q hq h0 hyq
              unfold rectsDisjoint
              dsimp only
              omega
        · omega
        · rw [maxRight_append, ← bbW]
        · rw [maxBottom_append, ← bbH]
          dsimp only
          omega
        · omega
        · omega
        · omega
    · by_cases h3 : m < s.curY + s.rowHeight + eH e
      · rw [step_newrow_defer h1 h2 h3]
        -- a rectangle sitting exactly at the new cursor line must be flat
        have hflat : ∀ p ∈ s.rects, p.2.y = s.curY + s.rowHeight → p.2.h = 0 := by
          intro p hp hy
          have h4 := bot p hp
          have h5 := ytop p hp
          omega
        refine ⟨?_, ?_, ?_, ?_, disj, ?_, bbW, bbH, bbWle, bbHle, ?_⟩ <;> dsimp only
        · intro p hp
          have := bot p hp; omega
        · intro p hp h0 hy
          have := hflat p hp hy
          omega
        · intro p hp hy
          have := bot p hp; omega
        · intro p hp
          have := ytop p hp; omega
        · omega
        · omega
      · rw [step_newrow_place h1 h2 h3]
        have hflat : ∀ p ∈ s.rects, p.2.y = s.curY + s.rowHeight → p.2.h = 0 := by
          intro p hp hy
          have h4 := bot p hp
          have h5 := ytop p hp
          omega
        have hpmem : ∀ p ∈ s.rects ++ [(e.1, (⟨0, s.curY + s.rowHeight, eW e, eH e⟩ : Rect))],
            p ∈ s.rects ∨ p = (e.1, (⟨0, s.curY + s.rowHeight, eW e, eH e⟩ : Rect)) := by
          intro p hp
          rcases List.mem_append.mp hp with hp | hp
          · exact Or.inl hp
          · exact Or.inr (List.mem_singleton.mp hp)
        refine ⟨?_, ?_, ?_, ?_, ?_, ?_, ?_, ?_, ?_, ?_, ?_⟩ <;> dsimp only
        · intro p hp
          rcases hpmem p hp with hp | rfl
          · have := bot p hp; omega
          · dsimp only; omega
        · intro p hp h0 hy
          rcases hpmem p hp with hp | rfl
          · have := hflat p hp hy
            omega
          · dsimp only; omega
        · intro p hp hy
          rcases hpmem p hp with hp | rfl
          · have := bot p hp; omega
          · dsimp only at hy ⊢; omega
        · intro p hp
          rcases hpmem p hp with hp | rfl
          · have := ytop p hp; omega
          · dsimp only; omega
        · refine noOverlap_append disj ?_
          intro q hq
          have := bot q hq
          unfold rectsDisjoint
          dsimp only
          omega
        · omega
        · rw [maxRight_append, ← bbW]
        · rw [maxBottom_append, ← bbH]
          dsimp only
          omega
        · omega
        · omega
        · omega

theorem foldl_passInv {m : Nat} (l : List Entry) :
    ∀ s : St, PassInv m s → PassInv m (l.foldl (step m) s) := by
  induction l with
  | nil => intro s hs; exact hs
  | cons e t ih =>
    intro s hs
    rw [List.foldl_cons]
    exact ih _ (step_passInv e hs)

theorem runPass_passInv (m : Nat) (l : List Entry) : PassInv m (runPass m l) :=
  foldl_passInv l St.init (passInv_init m)

end PackAtlases

namespace PackAtlases

/-- Every atlas the loop emits satisfies the pass invariant's conclusions. -/
theorem packLoop_atlas (m : Nat) : ∀ (fuel : Nat) (l : List Entry) (a : Atlas),
    a ∈ (packLoop m fuel l).atlases →
    noOverlap a.rects ∧ a.width = maxRight a.rects ∧ a.height = maxBottom a.rects ∧
    a.width ≤ m ∧ a.height ≤ m := by
  intro fuel
  induction fuel with
  | zero =>
    intro l a ha
    cases l with
    | nil => simp [packLoop] at ha
    | cons e t => simp [packLoop] at ha
  | succ f ih =>
    intro l a ha
    cases l with
    | nil => simp [packLoop] at ha
    | cons e t =>
      simp only [packLoop] at ha
      by_cases hemp : (runPass m (e :: t)).placed.isEmpty = true
      · rw [if_pos hemp] at ha
        simp at ha
      · rw [if_neg hemp] at ha
        simp only [List.mem_cons] at ha
        rcases ha with rfl | ha
        · have hinv := runPass_passInv m (e :: t)
          exact ⟨hinv.disj, hinv.bbW, hinv.bbH, hinv.bbWle, hinv.bbHle⟩
        · exact ih _ a ha

/-- Claim C1: for every input sprite mapping and every atlas produced by
`pack_atlas`, no two placed rectangles of the same atlas overlap: the
rectangle map is pairwise disjoint as axis-aligned boxes. -/
theorem pack_atlas_no_two_rects_overlap (maxSize : Nat) (sprites : List Entry) :
    ∀ a ∈ (packAtlas maxSize sprites).atlases,
      a.rects.Pairwise (fun p q => rectsDisjoint p.2 q.2) := by
  intro a ha
  exact (packLoop_atlas maxSize _ _ a ha).1

theorem pack_atlas_no_two_rects_overlap_witness :
    ([(("a" : String), (⟨0, 0, 10, 20⟩ : Rect)), ("b", ⟨10, 0, 10, 20⟩)]).Pairwise
      (fun p q => rectsDisjoint p.2 q.2) :=
  pack_atlas_no_two_rects_overlap 25 [("a", 10, 20), ("b", 10, 20), ("c", 10, 20)]
    ⟨20, 20, [("a", ⟨0, 0, 10, 20⟩), ("b", ⟨10, 0, 10, 20⟩)]⟩ (by decide)

/-- Claim C6: every atlas's canvas width is the maximum of `x + w` over its
placed rectangles and its height the maximum of `y + h` (the tight bounding
box, not the maximum size), and both dimensions are bounded by the maximum
atlas size (`MAX_ATLAS_SIZE` for `pack_atlas` itself). -/
theorem pack_atlas_tight_bounding_box (maxSize : Nat) (sprites : List Entry) :
    (∀ a ∈ (packAtlas maxSize sprites).atlases,
      a.width = maxRight a.rects ∧ a.height = maxBottom a.rects ∧
      a.width ≤ maxSize ∧ a.height ≤ maxSize) ∧
    ∀ a ∈ (pack_atlas sprites).atlases,
      a.width ≤ MAX_ATLAS_SIZE ∧ a.height ≤ MAX_ATLAS_SIZE := by
  constructor
  · intro a ha
    obtain ⟨-, h1, h2, h3, h4⟩ := packLoop_atlas maxSize _ _ a ha
    exact ⟨h1, h2, h3, h4⟩
  · intro a ha
    obtain ⟨-, -, -, h3, h4⟩ := packLoop_atlas MAX_ATLAS_SIZE _ _ a ha
    exact ⟨h3, h4⟩

theorem pack_atlas_tight_bounding_box_witness :
    (Atlas.mk 20 20 [("a", ⟨0, 0, 10, 20⟩), ("b", ⟨10, 0, 10, 20⟩)]).width
        = maxRight (Atlas.mk 20 20 [("a", ⟨0, 0, 10, 20⟩), ("b", ⟨10, 0, 10, 20⟩)]).rects ∧
      (Atlas.mk 20 20 [("a", ⟨0, 0, 10, 20⟩), ("b", ⟨10, 0, 10, 20⟩)]).height
        = maxBottom (Atlas.mk 20 20 [("a", ⟨0, 0, 10, 20⟩), ("b", ⟨10, 0, 10, 20⟩)]).rects ∧
      (Atlas.mk 20 20 [("a", ⟨0, 0, 10, 20⟩), ("b", ⟨10, 0, 10, 20⟩)]).width ≤ 25 ∧
      (Atlas.mk 20 20 [("a", ⟨0, 0, 10, 20⟩), ("b", ⟨10, 0, 10, 20⟩)]).height ≤ 25 :=
  (pack_atlas_tight_bounding_box 25 [("a", 10, 20), ("b", 10, 20), ("c", 10, 20)]).1
    ⟨20, 20, [("a", ⟨0, 0, 10, 20⟩), ("b", ⟨10, 0, 10, 20⟩)]⟩ (by decide)

/-- Claim C3: on the input `{a: 10x20, b: 10x20, c: 10x20}` with
`maxSize = 25`, the sort keeps the original order `a, b, c`, atlas 0
holds `a` at `(0,0)` and `b` at `(10,0)` with bounding box `20×20`,
`c` is deferred and becomes atlas 1 at `(0,0)` with bounding box
`10×20`, and exactly two atlases are produced, with no error. -/
theorem pack_atlas_concrete_scenario :
    sortEntries [("a", 10, 20), ("b", 10, 20), ("c", 10, 20)]
        = [("a", 10, 20), ("b", 10, 20), ("c", 10, 20)] ∧
      packAtlas 25 [("a", 10, 20), ("b", 10, 20), ("c", 10, 20)] =
        ⟨[⟨20, 20, [("a", ⟨0, 0, 10, 20⟩), ("b", ⟨10, 0, 10, 20⟩)]⟩,
          ⟨10, 20, [("c", ⟨0, 0, 10, 20⟩)]⟩], false, []⟩ :=
  ⟨by decide, by decide⟩

end PackAtlases

namespace PackAtlases

/-! ### Bookkeeping: `placed`, `rects` keys and `warnings` -/

/-- Each loop iteration either defers the sprite (no change), skips it as
oversize (placed and warned, no rectangle), or places it (placed with a
rectangle, no warning). -/
theorem step_shape (m : Nat) (s : St) (e : Entry) :
    ((step m s e).rects = s.rects ∧ (step m s e).placed = s.placed ∧
      (step m s e).warnings = s.warnings) ∨
    ((m < eW e ∨ m < eH e) ∧ (step m s e).rects = s.rects ∧
      (step m s e).placed = s.placed ++ [e.1] ∧
      (step m s e).warnings = s.warnings ++ [e.1]) ∨
    (¬ (m < eW e ∨ m < eH e) ∧ (∃ r, (step m s e).rects = s.rects ++ [(e.1, r)]) ∧
      (step m s e).placed = s.placed ++ [e.1] ∧
      (step m s e).warnings = s.warnings) := by
  by_cases h1 : m < eW e ∨ m < eH e
  · rw [step_oversize h1]
    exact Or.inr (Or.inl ⟨h1, rfl, rfl, rfl⟩)
  · by_cases h2 : s.curX + eW e ≤ m
    · by_cases h3 : m < s.curY + eH e
      · rw [step_skip_vert h1 h2 h3]
        exact Or.inl ⟨rfl, rfl, rfl⟩
      · rw [step_fit_row h1 h2 h3]
        exact Or.inr (Or.inr ⟨h1, ⟨_, rfl⟩, rfl, rfl⟩)
    · by_cases h3 : m < s.curY + s.rowHeight + eH e
      · rw [step_newrow_defer h1 h2 h3]
        exact Or.inl ⟨rfl, rfl, rfl⟩
      · rw [step_newrow_place h1 h2 h3]
        exact Or.inr (Or.inr ⟨h1, ⟨_, rfl⟩, rfl, rfl⟩)

theorem foldl_placed_mono {m : Nat} (l : List Entry) :
    ∀ (s : St) (k : String), k ∈ s.placed → k ∈ (l.foldl (step m) s).placed := by
  induction l with
  | nil => intro s k h; exact h
  | cons e t ih =>
    intro s k h
    rw [List.foldl_cons]
    refine ih _ k ?_
    rcases step_shape m s e with ⟨-, hp, -⟩ | ⟨-, -, hp, -⟩ | ⟨-, -, hp, -⟩ <;>
      rw [hp] <;> first | exact h | exact List.mem_append_left _ h

theorem foldl_warnings_mono {m : Nat} (l : List Entry) :
    ∀ (s : St) (k : String), k ∈ s.warnings → k ∈ (l.foldl (step m) s).warnings := by
  induction l with
  | nil => intro s k h; exact h
  | cons e t ih =>
    intro s k h
    rw [List.foldl_cons]
    refine ih _ k ?_
    rcases step_shape m s e with ⟨-, -, hp⟩ | ⟨-, -, -, hp⟩ | ⟨-, -, -, hp⟩ <;>
      rw [hp] <;> first | exact h | exact List.mem_append_left _ h

theorem foldl_rects_keys_sublist {m : Nat} (l : List Entry) :
    ∀ s : St, ((l.foldl (step m) s).rects.map Prod.fst).Sublist
      (s.rects.map Prod.fst ++ l.map Prod.fst) := by
  induction l with
  | nil => intro s; simp
  | cons e t ih =>
    intro s
    rw [List.foldl_cons]
    have h := ih (step m s e)
    have hgrow : ((step m s e).rects.map Prod.fst).Sublist
        (s.rects.map Prod.fst ++ [e.1]) := by
      rcases step_shape m s e with ⟨hr, -, -⟩ | ⟨-, hr, -, -⟩ | ⟨-, ⟨r, hr⟩, -, -⟩ <;>
        rw [hr]
      · exact List.sublist_append_left _ _
      · exact List.sublist_append_left _ _
      · simp
    have h2 := h.trans (hgrow.append (List.Sublist.refl (t.map Prod.fst)))
    simpa [List.append_assoc] using h2

end PackAtlases

namespace PackAtlases

theorem foldl_rects_sub_placed {m : Nat} (l : List Entry) :
    ∀ (s : St), (∀ k, k ∈ s.rects.map Prod.fst → k ∈ s.placed) →
      ∀ k, k ∈ (l.foldl (step m) s).rects.map Prod.fst →
        k ∈ (l.foldl (step m) s).placed := by
  induction l with
  | nil => intro s hs; exact hs
  | cons e t ih =>
    intro s hs
    rw [List.foldl_cons]
    refine ih _ ?_
    intro k hk
    rcases step_shape m s e with ⟨hr, hp, -⟩ | ⟨-, hr, hp, -⟩ | ⟨-, ⟨r, hr⟩, hp, -⟩ <;>
      rw [hr] at hk <;> rw [hp]
    · exact hs k hk
    · exact List.mem_append_left _ (hs k hk)
    · rw [List.map_append] at hk
      rcases List.mem_append.mp hk with hk | hk
      · exact List.mem_append_left _ (hs k hk)
      · simp only [List.map_cons, List.map_nil] at hk
        exact List.mem_append_right _ (by simpa using hk)

theorem runPass_rects_sub_placed (m : Nat) (l : List Entry) (k : String)
    (h : k ∈ (runPass m l).rects.map Prod.fst) : k ∈ (runPass m l).placed := by
  refine foldl_rects_sub_placed l St.init ?_ k h
  intro k hk
  simp [St.init] at hk

theorem runPass_rects_keys_sublist (m : Nat) (l : List Entry) :
    ((runPass m l).rects.map Prod.fst).Sublist (l.map Prod.fst) := by
  have h := foldl_rects_keys_sublist (m := m) l St.init
  simpa [St.init] using h

/-- For a key whose entries are never oversize, the pass places the key
exactly when it gives it a rectangle. -/
theorem foldl_placed_iff_rects {m : Nat} {k : String} (l : List Entry) :
    ∀ (s : St), (∀ e ∈ l, e.1 = k → ¬ (m < eW e ∨ m < eH e)) →
      ((k ∈ s.placed) ↔ (k ∈ s.rects.map Prod.fst)) →
      ((k ∈ (l.foldl (step m) s).placed) ↔
        (k ∈ (l.foldl (step m) s).rects.map Prod.fst)) := by
  induction l with
  | nil => intro s _ hs; exact hs
  | cons e t ih =>
    intro s hsmall hs
    rw [List.foldl_cons]
    refine ih _ (fun x hx => hsmall x (List.mem_cons_of_mem e hx)) ?_
    rcases step_shape m s e with ⟨hr, hp, -⟩ | ⟨hov, hr, hp, -⟩ | ⟨-, ⟨r, hr⟩, hp, -⟩ <;>
      rw [hr, hp]
    · exact hs
    · have hne : e.1 ≠ k := by
        intro hek
        exact hsmall e (List.mem_cons_self e t) hek hov
      constructor
      · intro hk
        rcases List.mem_append.mp hk with hk | hk
        · exact hs.mp hk
        · exact absurd (List.mem_singleton.mp hk).symm hne
      · intro hk
        exact List.mem_append_left _ (hs.mpr hk)
    · rw [List.map_append]
      simp only [List.map_cons, List.map_nil]
      constructor
      · intro hk
        rcases List.mem_append.mp hk with hk | hk
        · exact List.mem_append_left _ (hs.mp hk)
        · exact List.mem_append_right _ hk
      · intro hk
        rcases List.mem_append.mp hk with hk | hk
        · exact List.mem_append_left _ (hs.mpr hk)
        · exact List.mem_append_right _ hk

/-- The first sprite of a pass is always marked placed: a fresh pass has
`cur_x = 0`, `cur_y = 0`, so it is either placed at the origin or skipped
as oversize (both append to `placed`). -/
theorem step_init_placed (m : Nat) (e : Entry) :
    (step m St.init e).placed = [e.1] := by
  by_cases h1 : m < eW e ∨ m < eH e
  · rw [step_oversize h1]
    rfl
  · have h2 : St.init.curX + eW e ≤ m := by
      simp only [St.init]
      omega
    have h3 : ¬ m < St.init.curY + eH e := by
      simp only [St.init]
      omega
    rw [step_fit_row h1 h2 h3]
    rfl

theorem runPass_head_placed (m : Nat) (e : Entry) (t : List Entry) :
    e.1 ∈ (runPass m (e :: t)).placed := by
  unfold runPass
  rw [List.foldl_cons]
  refine foldl_placed_mono t _ e.1 ?_
  rw [step_init_placed]
  exact List.mem_singleton.mpr rfl

/-- An oversize sprite in the pass list is warned about. -/
theorem runPass_warn (m : Nat) (l : List Entry) (e : Entry)
    (he : e ∈ l) (hov : m < eW e ∨ m < eH e) : e.1 ∈ (runPass m l).warnings := by
  obtain ⟨l₁, l₂, rfl⟩ := List.append_of_mem he
  unfold runPass
  rw [List.foldl_append, List.foldl_cons]
  refine foldl_warnings_mono l₂ _ e.1 ?_
  rw [step_oversize hov]
  exact List.mem_append_right _ (List.mem_singleton.mpr rfl)

/-- A key all of whose entries are oversize never receives a rectangle. -/
theorem foldl_oversize_no_rect {m : Nat} {k : String} (l : List Entry) :
    ∀ (s : St), (∀ e ∈ l, e.1 = k → (m < eW e ∨ m < eH e)) →
      k ∉ s.rects.map Prod.fst →
      k ∉ (l.foldl (step m) s).rects.map Prod.fst := by
  induction l with
  | nil => intro s _ hs; exact hs
  | cons e t ih =>
    intro s hov hs
    rw [List.foldl_cons]
    refine ih _ (fun x hx => hov x (List.mem_cons_of_mem e hx)) ?_
    rcases step_shape m s e with ⟨hr, -, -⟩ | ⟨-, hr, -, -⟩ | ⟨hsmall, ⟨r, hr⟩, -, -⟩ <;>
      rw [hr]
    · exact hs
    · exact hs
    · rw [List.map_append]
      intro hk
      rcases List.mem_append.mp hk with hk | hk
      · exact hs hk
      · simp only [List.map_cons, List.map_nil, List.mem_singleton] at hk
        exact hsmall (hov e (List.mem_cons_self e t) hk.symm)

end PackAtlases

namespace PackAtlases

/-- After one pass, the head sprite is placed, so the filtered remaining
list drops it. -/
theorem runPass_filter_length (m : Nat) (e : Entry) (t : List Entry) :
    ((e :: t).filter (fun x => !(runPass m (e :: t)).placed.contains x.1)).length
      ≤ t.length := by
  have hmem := runPass_head_placed m e t
  have hcons : (e :: t).filter (fun x => !(runPass m (e :: t)).placed.contains x.1)
      = t.filter (fun x => !(runPass m (e :: t)).placed.contains x.1) := by
    rw [List.filter_cons]
    simp [hmem]
  rw [hcons]
  exact List.length_filter_le _ t

theorem packLoop_error_false (m : Nat) : ∀ (fuel : Nat) (l : List Entry),
    l.length ≤ fuel → (packLoop m fuel l).error = false := by
  intro fuel
  induction fuel with
  | zero =>
    intro l hl
    cases l with
    | nil => rfl
    | cons e t => simp at hl
  | succ f ih =>
    intro l hl
    cases l with
    | nil => rfl
    | cons e t =>
      have hmem := runPass_head_placed m e t
      have hne : ¬ ((runPass m (e :: t)).placed.isEmpty = true) := by
        intro hemp
        rw [List.isEmpty_iff] at hemp
        rw [hemp] at hmem
        exact (List.not_mem_nil _) hmem
      simp only [packLoop]
      rw [if_neg hne]
      refine ih _ ?_
      have h1 := runPass_filter_length m e t
      simp only [List.length_cons] at hl
      omega

theorem keyCount_cons (k : String) (a : Atlas) (res : PackResult)
    (er : Bool) (ws : List String) :
    keyCount k ⟨a :: res.atlases, er, ws⟩
      = (a.rects.map Prod.fst).count k + keyCount k res := by
  simp [keyCount]

theorem packLoop_keyCount_zero (m : Nat) (k : String) : ∀ (fuel : Nat) (l : List Entry),
    k ∉ l.map Prod.fst → keyCount k (packLoop m fuel l) = 0 := by
  intro fuel
  induction fuel with
  | zero =>
    intro l hk
    cases l with
    | nil => rfl
    | cons e t => rfl
  | succ f ih =>
    intro l hk
    cases l with
    | nil => rfl
    | cons e t =>
      simp only [packLoop]
      by_cases hemp : (runPass m (e :: t)).placed.isEmpty = true
      · rw [if_pos hemp]
        rfl
      · rw [if_neg hemp]
        rw [keyCount_cons]
        have hhead : k ∉ ((runPass m (e :: t)).rects.map Prod.fst) := by
          intro hmem
          exact hk ((runPass_rects_keys_sublist m (e :: t)).mem hmem)
        have hrest : keyCount k (packLoop m f
            ((e :: t).filter (fun x => !(runPass m (e :: t)).placed.contains x.1))) = 0 := by
          refine ih _ ?_
          intro hmem
          refine hk ?_
          have hsub : ((e :: t).filter
              (fun x => !(runPass m (e :: t)).placed.contains x.1)).Sublist (e :: t) :=
            List.filter_sublist _
          exact (hsub.map Prod.fst).mem hmem
        rw [List.count_eq_zero.mpr hhead, hrest]

theorem packLoop_keyCount_one (m : Nat) (k : String) : ∀ (fuel : Nat) (l : List Entry),
    (l.map Prod.fst).Nodup →
    (∀ e ∈ l, e.1 = k → ¬ (m < eW e ∨ m < eH e)) →
    (∃ e ∈ l, e.1 = k) →
    l.length ≤ fuel →
    keyCount k (packLoop m fuel l) = 1 := by
  intro fuel
  induction fuel with
  | zero =>
    intro l hnd hsmall hex hl
    cases l with
    | nil =>
      obtain ⟨e, he, -⟩ := hex
      exact absurd he (List.not_mem_nil e)
    | cons e t => simp at hl
  | succ f ih =>
    intro l hnd hsmall hex hl
    cases l with
    | nil =>
      obtain ⟨e, he, -⟩ := hex
      exact absurd he (List.not_mem_nil e)
    | cons e t =>
      have hmemh := runPass_head_placed m e t
      have hne : ¬ ((runPass m (e :: t)).placed.isEmpty = true) := by
        intro hemp
        rw [List.isEmpty_iff] at hemp
        rw [hemp] at hmemh
        exact (List.not_mem_nil _) hmemh
      simp only [packLoop]
      rw [if_neg hne]
      rw [keyCount_cons]
      by_cases hk : k ∈ (runPass m (e :: t)).rects.map Prod.fst
      · -- the key is placed in this pass: count 1 here, 0 in later atlases
        have hnd2 : ((runPass m (e :: t)).rects.map Prod.fst).Nodup :=
          (runPass_rects_keys_sublist m (e :: t)).nodup hnd
        have hcount : ((runPass m (e :: t)).rects.map Prod.fst).count k = 1 :=
          List.count_eq_one_of_mem hnd2 hk
        have hplaced : k ∈ (runPass m (e :: t)).placed :=
          runPass_rects_sub_placed m (e :: t) k hk
        have hrest : keyCount k (packLoop m f
            ((e :: t).filter (fun x => !(runPass m (e :: t)).placed.contains x.1))) = 0 := by
          refine packLoop_keyCount_zero m k f _ ?_
          intro hmem
          obtain ⟨x, hx, hxk⟩ := List.mem_map.mp hmem
          have hxf := List.of_mem_filter hx
          rw [hxk] at hxf
          simp [hplaced] at hxf
        dsimp only
        omega
      · -- the key is deferred: count 0 here, 1 in later atlases
        have hnplaced : k ∉ (runPass m (e :: t)).placed := by
          intro hplaced
          have hiff := foldl_placed_iff_rects (m := m) (k := k) (e :: t) St.init
            hsmall (by simp [St.init])
          exact hk (hiff.mp hplaced)
        have hcount : ((runPass m (e :: t)).rects.map Prod.fst).count k = 0 :=
          List.count_eq_zero.mpr hk
        obtain ⟨e0, he0, he0k⟩ := hex
        have he0f : e0 ∈ (e :: t).filter
            (fun x => !(runPass m (e :: t)).placed.contains x.1) := by
          refine List.mem_filter.mpr ⟨he0, ?_⟩
          rw [he0k]
          simp [hnplaced]
        have hsub : ((e :: t).filter
            (fun x => !(runPass m (e :: t)).placed.contains x.1)).Sublist (e :: t) :=
          List.filter_sublist _
        have hrest : keyCount k (packLoop m f
            ((e :: t).filter (fun x => !(runPass m (e :: t)).placed.contains x.1))) = 1 := by
          refine ih _ ((hsub.map Prod.fst).nodup hnd) ?_ ⟨e0, he0f, he0k⟩ ?_
          · intro x hx hxk
            exact hsmall x (hsub.mem hx) hxk
          · have h1 := runPass_filter_length m e t
            simp only [List.length_cons] at hl
            omega
        dsimp only
        omega

/-- Two entries of a mapping with unique keys and the same key coincide. -/
theorem key_unique {l : List Entry} (hnd : (l.map Prod.fst).Nodup)
    {e f : Entry} (he : e ∈ l) (hf : f ∈ l) (hk : e.1 = f.1) : e = f := by
  induction l with
  | nil => exact absurd he (List.not_mem_nil e)
  | cons a t ih =>
    simp only [List.map_cons, List.nodup_cons] at hnd
    rw [List.mem_cons] at he hf
    rcases he with rfl | he
    · rcases hf with rfl | hf
      · rfl
      · refine absurd ?_ hnd.1
        rw [hk]
        exact List.mem_map.mpr ⟨f, hf, rfl⟩
    · rcases hf with rfl | hf
      · refine absurd ?_ hnd.1
        rw [← hk]
        exact List.mem_map.mpr ⟨e, he, rfl⟩
      · exact ih hnd.2 he hf

/-- Bridge: a sprite with unique key and both dimensions within the limit
is placed exactly once by `packAtlas`. -/
theorem packAtlas_keyCount_one (m : Nat) (sprites : List Entry)
    (hnd : (sprites.map Prod.fst).Nodup) (k : String) (w h : Nat)
    (hmem : (k, w, h) ∈ sprites) (hw : w ≤ m) (hh : h ≤ m) :
    keyCount k (packAtlas m sprites) = 1 := by
  have hperm := sortEntries_perm sprites
  have hpermmap := hperm.map Prod.fst
  refine packLoop_keyCount_one m k _ _ (hpermmap.nodup_iff.mpr hnd) ?_ ?_ le_rfl
  · intro e he hek
    have hemem : e ∈ sprites := hperm.mem_iff.mp he
    have : e = (k, w, h) := key_unique hnd hemem hmem hek
    subst this
    simp only [eW, eH]
    omega
  · exact ⟨(k, w, h), hperm.mem_iff.mpr hmem, rfl⟩

/-- Claim C2: with unique keys, every sprite whose width and height are both
within the maximum size receives exactly one rectangle across the whole
returned atlas set — it is placed in exactly one atlas, and never twice. -/
theorem pack_atlas_each_small_sprite_placed_once (maxSize : Nat)
    (sprites : List Entry) (hnd : (sprites.map Prod.fst).Nodup)
    (k : String) (w h : Nat) (hmem : (k, w, h) ∈ sprites)
    (hw : w ≤ maxSize) (hh : h ≤ maxSize) :
    keyCount k (packAtlas maxSize sprites) = 1 :=
  packAtlas_keyCount_one maxSize sprites hnd k w h hmem hw hh

theorem pack_atlas_each_small_sprite_placed_once_witness :
    keyCount "a" (packAtlas 25 [("a", 10, 20), ("b", 10, 20), ("c", 10, 20)]) = 1 :=
  pack_atlas_each_small_sprite_placed_once 25
    [("a", 10, 20), ("b", 10, 20), ("c", 10, 20)] (by decide) "a" 10 20
    (by decide) (by decide) (by decide)

end PackAtlases

namespace PackAtlases

theorem packLoop_oversize_absent (m : Nat) (k : String) :
    ∀ (fuel : Nat) (l : List Entry),
      (∀ e ∈ l, e.1 = k → (m < eW e ∨ m < eH e)) →
      ∀ a ∈ (packLoop m fuel l).atlases, k ∉ a.rects.map Prod.fst := by
  intro fuel
  induction fuel with
  | zero =>
    intro l hov a ha
    cases l with
    | nil => simp [packLoop] at ha
    | cons e t => simp [packLoop] at ha
  | succ f ih =>
    intro l hov a ha
    cases l with
    | nil => simp [packLoop] at ha
    | cons e t =>
      simp only [packLoop] at ha
      by_cases hemp : (runPass m (e :: t)).placed.isEmpty = true
      · rw [if_pos hemp] at ha
        simp at ha
      · rw [if_neg hemp] at ha
        simp only [List.mem_cons] at ha
        rcases ha with rfl | ha
        · exact foldl_oversize_no_rect (e :: t) St.init hov (by simp [St.init])
        · refine ih _ ?_ a ha
          intro x hx
          exact hov x ((List.filter_sublist _).mem hx)

theorem packLoop_warn (m : Nat) :
    ∀ (fuel : Nat) (l : List Entry) (e : Entry),
      e ∈ l → (m < eW e ∨ m < eH e) → 1 ≤ fuel →
      e.1 ∈ (packLoop m fuel l).warnings := by
  intro fuel
  cases fuel with
  | zero =>
    intro l e he hov hf
    omega
  | succ f =>
    intro l e he hov hf
    cases l with
    | nil => exact absurd he (List.not_mem_nil e)
    | cons e0 t =>
      simp only [packLoop]
      by_cases hemp : (runPass m (e0 :: t)).placed.isEmpty = true
      · rw [if_pos hemp]
        exact runPass_warn m (e0 :: t) e he hov
      · rw [if_neg hemp]
        exact List.mem_append_left _ (runPass_warn m (e0 :: t) e he hov)

/-- Claim C4: with unique keys, a sprite with a dimension exceeding the
maximum size receives no rectangle in any atlas, is warned about, and its
presence neither makes `pack_atlas` fail (the error branch is not taken)
nor stops the remaining sprites from being processed: every other sprite
with both dimensions within the limit is still placed exactly once. -/
theorem pack_atlas_oversize_dropped_with_warning (maxSize : Nat)
    (sprites : List Entry) (hnd : (sprites.map Prod.fst).Nodup)
    (k : String) (w h : Nat) (hmem : (k, w, h) ∈ sprites)
    (hov : maxSize < w ∨ maxSize < h) :
    (∀ a ∈ (packAtlas maxSize sprites).atlases, k ∉ a.rects.map Prod.fst) ∧
    k ∈ (packAtlas maxSize sprites).warnings ∧
    (packAtlas maxSize sprites).error = false ∧
    (∀ k2 w2 h2, (k2, w2, h2) ∈ sprites → w2 ≤ maxSize → h2 ≤ maxSize →
      keyCount k2 (packAtlas maxSize sprites) = 1) := by
  have hperm := sortEntries_perm sprites
  refine ⟨?_, ?_, ?_, ?_⟩
  · refine packLoop_oversize_absent maxSize k _ _ ?_
    intro e he hek
    have hemem : e ∈ sprites := hperm.mem_iff.mp he
    have : e = (k, w, h) := key_unique hnd hemem hmem hek
    subst this
    simp only [eW, eH]
    omega
  · have hmem2 : (k, w, h) ∈ sortEntries sprites := hperm.mem_iff.mpr hmem
    refine packLoop_warn maxSize _ _ (k, w, h) hmem2 ?_ ?_
    · simp only [eW, eH]
      omega
    · have := List.length_pos_of_mem hmem2
      omega
  · exact packLoop_error_false maxSize _ _ le_rfl
  · intro k2 w2 h2 hmem2 hw2 hh2
    exact packAtlas_keyCount_one maxSize sprites hnd k2 w2 h2 hmem2 hw2 hh2

theorem pack_atlas_oversize_dropped_with_warning_witness :
    (∀ a ∈ (packAtlas 10 [("big", 11, 2), ("a", 3, 3)]).atlases,
      "big" ∉ a.rects.map Prod.fst) ∧
    "big" ∈ (packAtlas 10 [("big", 11, 2), ("a", 3, 3)]).warnings ∧
    (packAtlas 10 [("big", 11, 2), ("a", 3, 3)]).error = false ∧
    (∀ k2 w2 h2, (k2, w2, h2) ∈ [(("big" : String), (11 : Nat), (2 : Nat)), ("a", 3, 3)] →
      k2 ≠ "big" → w2 ≤ 10 → h2 ≤ 10 →
      keyCount k2 (packAtlas 10 [("big", 11, 2), ("a", 3, 3)]) = 1) := by
  have h := pack_atlas_oversize_dropped_with_warning 10 [("big", 11, 2), ("a", 3, 3)]
    (by decide) "big" 11 2 (by decide) (by decide)
  exact ⟨h.1, h.2.1, h.2.2.1, fun k2 w2 h2 hm _ hw2 hh2 => h.2.2.2 k2 w2 h2 hm hw2 hh2⟩

/-- Claim C10: each pass of `pack_atlas`'s while-loop marks at least one
remaining sprite as placed — the first sprite of a pass is either
oversize-skipped or placed at the origin, since a fresh pass starts with
`cur_x = 0`, `cur_y = 0` — so the remaining list strictly shrinks each
pass, the loop always terminates, and the `"Could not place any sprites"`
error branch is unreachable. -/
theorem pack_atlas_loop_always_makes_progress :
    (∀ (m : Nat) (e : Entry) (t : List Entry),
      (runPass m (e :: t)).placed.isEmpty = false ∧
      ((e :: t).filter (fun x => !(runPass m (e :: t)).placed.contains x.1)).length
        < (e :: t).length) ∧
    ∀ (m : Nat) (sprites : List Entry), (packAtlas m sprites).error = false := by
  constructor
  · intro m e t
    have hmem := runPass_head_placed m e t
    constructor
    · cases hemp : (runPass m (e :: t)).placed.isEmpty with
      | false => rfl
      | true =>
        rw [List.isEmpty_iff] at hemp
        rw [hemp] at hmem
        exact absurd hmem (List.not_mem_nil _)
    · have h1 := runPass_filter_length m e t
      simp only [List.length_cons]
      omega
  · intro m sprites
    exact packLoop_error_false m _ _ le_rfl

end PackAtlases

namespace SpriteSheetBatch

/-- Claim C7: `build_sheet` places the image at 0-based ordinal `idx` at
row `idx % rows`, column `idx / rows`, pixel origin
`(col * tileW, row * tileH)`, on a canvas of exactly
`columns*tileW × rows*tileH` pre-filled with the fill color; with 5 images
and `columns = 2`, `rows = 3` the origins follow the column-major pattern
and the canvas is `2*tileW × 3*tileH`. -/
theorem build_sheet_column_major_layout :
    (∀ (n tW tH c r : Nat) (fill : Nat × Nat × Nat × Nat) (idx : Nat),
      0 < r → idx < n →
      ((build_sheet n tW tH c r fill).placements)[idx]? =
        some (idx / r * tW, idx % r * tH)) ∧
    (∀ (n tW tH c r : Nat) (fill : Nat × Nat × Nat × Nat),
      (build_sheet n tW tH c r fill).width = c * tW ∧
      (build_sheet n tW tH c r fill).height = r * tH ∧
      (build_sheet n tW tH c r fill).fill = fill) ∧
    (∀ (tW tH : Nat) (fill : Nat × Nat × Nat × Nat),
      (build_sheet 5 tW tH 2 3 fill).placements =
        [(0 * tW, 0 * tH), (0 * tW, 1 * tH), (0 * tW, 2 * tH),
         (1 * tW, 0 * tH), (1 * tW, 1 * tH)] ∧
      (build_sheet 5 tW tH 2 3 fill).width = 2 * tW ∧
      (build_sheet 5 tW tH 2 3 fill).height = 3 * tH) := by
  refine ⟨?_, ?_, ?_⟩
  · intro n tW tH c r fill idx hr h
    simp [build_sheet, List.getElem?_map, List.getElem?_range h]
  · intro n tW tH c r fill
    exact ⟨rfl, rfl, rfl⟩
  · intro tW tH fill
    refine ⟨?_, rfl, rfl⟩
    simp [build_sheet, List.range_succ]

theorem build_sheet_column_major_layout_witness :
    ((build_sheet 5 7 9 2 3 (0, 0, 0, 0)).placements)[4]? = some (4 / 3 * 7, 4 % 3 * 9) :=
  build_sheet_column_major_layout.1 5 7 9 2 3 (0, 0, 0, 0) 4 (by decide) (by decide)

/-- Claim C8 fails as stated: with `columns = 1`, `rows = 1`,
`batch_size = 2` and one input image, the grid check does fail the run,
but a converted PNG has already been written, so it is not true that no
output file of any kind is written before the failure. -/
theorem sheet_config_error_counterexample :
    1 * 1 < 2 ∧
    (sheetBatchMain true 1 2 1 1).exitError = true ∧
    (sheetBatchMain true 1 2 1 1).writes = [FileWrite.convertedPng 0] :=
  ⟨by decide, by decide, by decide⟩

/-- Claim C8, amended: whenever `columns * rows < batch_size`, the run
exits non-zero and no sprite-sheet file is written (the failure happens
before any sheet is built), but converted-PNG output files may already
have been written, since conversion runs before the grid check. -/
theorem sheet_config_error_no_sheet_written (inputDirOk : Bool)
    (numImages batchSize columns rows : Nat)
    (hlt : columns * rows < batchSize) :
    (sheetBatchMain inputDirOk numImages batchSize columns rows).exitError = true ∧
    ((sheetBatchMain inputDirOk numImages batchSize columns rows).writes.countP
      isSheetWrite) = 0 := by
  unfold sheetBatchMain
  cases inputDirOk with
  | false => exact ⟨rfl, rfl⟩
  | true =>
    by_cases h0 : numImages = 0
    · rw [if_neg (by simp), if_pos h0]
      exact ⟨rfl, rfl⟩
    · rw [if_neg (by simp), if_neg h0, if_pos hlt]
      refine ⟨rfl, ?_⟩
      rw [List.countP_eq_zero]
      intro a ha
      obtain ⟨i, -, rfl⟩ := List.mem_map.mp ha
      simp [isSheetWrite]

theorem sheet_config_error_no_sheet_written_witness :
    (sheetBatchMain true 1 2 1 1).exitError = true ∧
    ((sheetBatchMain true 1 2 1 1).writes.countP isSheetWrite) = 0 :=
  sheet_config_error_no_sheet_written true 1 2 1 1 (by decide)

end SpriteSheetBatch

namespace PackAtlases

/-! ### Manifest read-modify-write -/

theorem lookup_eq_filter_head {V : Type} (k : String) (l : List (String × V)) :
    List.lookup k l = ((l.filter (fun q => q.1 == k)).head?).map Prod.snd := by
  induction l with
  | nil => rfl
  | cons q t ih =>
    obtain ⟨a, b⟩ := q
    by_cases h : a = k
    · subst h
      simp [List.lookup, List.filter_cons]
    · have h1 : (k == a) = false := beq_eq_false_iff_ne.mpr (fun hh => h hh.symm)
      have h2 : (a == k) = false := beq_eq_false_iff_ne.mpr h
      simp [List.lookup, List.filter_cons, h1, h2, ih]

theorem filter_map_set {V : Type} (p : String → Bool) (k : String) (v : V)
    (hp : p k = false) :
    ∀ m : List (String × V),
      ((m.map (fun q => if q.1 = k then (k, v) else q)).filter (fun q => p q.1))
        = m.filter (fun q => p q.1) := by
  intro m
  induction m with
  | nil => rfl
  | cons q t ih =>
    rw [List.map_cons, List.filter_cons, List.filter_cons]
    by_cases hq : q.1 = k
    · rw [if_pos hq]
      have h1 : p (k, v).1 = false := hp
      have h2 : p q.1 = false := by rw [hq]; exact hp
      simp [h1, h2, ih]
    · rw [if_neg hq]
      by_cases hpq : p q.1 = true
      · simp [hpq, ih]
      · simp only [Bool.not_eq_true] at hpq
        simp [hpq, ih]

theorem filter_dictSet {V : Type} (p : String → Bool) (m : List (String × V))
    (k : String) (v : V) (hp : p k = false) :
    (dictSet m k v).filter (fun q => p q.1) = m.filter (fun q => p q.1) := by
  unfold dictSet
  by_cases hany : m.any (fun q => decide (q.1 = k)) = true
  · rw [if_pos hany]
    exact filter_map_set p k v hp m
  · rw [if_neg hany]
    rw [List.filter_append]
    simp [List.filter_cons, hp]

theorem lookup_dictSet_ne {V : Type} (m : List (String × V)) (k k2 : String)
    (v : V) (hne : k ≠ k2) :
    List.lookup k (dictSet m k2 v) = List.lookup k m := by
  rw [lookup_eq_filter_head, lookup_eq_filter_head,
    filter_dictSet (fun x => x == k) m k2 v
      (beq_eq_false_iff_ne.mpr (fun hh => hne hh.symm))]

theorem mainManifest_filter {V : Type} (p : String → Bool) :
    ∀ (results : List (String × Option V)) (m0 : List (String × V)),
      (∀ cr ∈ results, cr.2.isSome = true → p (cr.1 ++ "_atlas") = false) →
      (mainManifest m0 results).filter (fun q => p q.1)
        = m0.filter (fun q => p q.1) := by
  intro results
  induction results with
  | nil => intro m0 _; rfl
  | cons cr rest ih =>
    intro m0 h
    obtain ⟨c, vo⟩ := cr
    cases vo with
    | none => exact ih m0 (fun x hx hs => h x (List.mem_cons_of_mem _ hx) hs)
    | some v =>
      have hpc : p (c ++ "_atlas") = false := h (c, some v) (List.mem_cons_self _ _) rfl
      have hrec := ih (dictSet m0 (c ++ "_atlas") v)
        (fun x hx hs => h x (List.mem_cons_of_mem _ hx) hs)
      rw [show mainManifest m0 ((c, some v) :: rest)
          = mainManifest (dictSet m0 (c ++ "_atlas") v) rest from rfl]
      rw [hrec, filter_dictSet p m0 _ v hpc]

theorem mainManifest_lookup {V : Type} (k : String) :
    ∀ (results : List (String × Option V)) (m0 : List (String × V)),
      (∀ cr ∈ results, cr.2.isSome = true → k ≠ cr.1 ++ "_atlas") →
      List.lookup k (mainManifest m0 results) = List.lookup k m0 := by
  intro results
  induction results with
  | nil => intro m0 _; rfl
  | cons cr rest ih =>
    intro m0 h
    obtain ⟨c, vo⟩ := cr
    cases vo with
    | none => exact ih m0 (fun x hx hs => h x (List.mem_cons_of_mem _ hx) hs)
    | some v =>
      have hpc : k ≠ c ++ "_atlas" := h (c, some v) (List.mem_cons_self _ _) rfl
      have hrec := ih (dictSet m0 (c ++ "_atlas") v)
        (fun x hx hs => h x (List.mem_cons_of_mem _ hx) hs)
      rw [show mainManifest m0 ((c, some v) :: rest)
          = mainManifest (dictSet m0 (c ++ "_atlas") v) rest from rfl]
      rw [hrec, lookup_dictSet_ne m0 k _ v hpc]

/-- Claim C9: the manifest written back differs from the one read only at
keys `"<category>_atlas"` of processed categories that produced an entry:
the lookup of every other key is unchanged, the association list
restricted to any set of unrelated keys is preserved verbatim, and a
category that produced no entry (missing directory or zero sprites)
changes nothing at all. -/
theorem manifest_merge_preserves_unrelated_keys (V : Type)
    (m0 : List (String × V)) (results : List (String × Option V)) :
    (∀ k : String, (∀ cr ∈ results, cr.2.isSome = true → k ≠ cr.1 ++ "_atlas") →
      List.lookup k (mainManifest m0 results) = List.lookup k m0) ∧
    (∀ p : String → Bool,
      (∀ cr ∈ results, cr.2.isSome = true → p (cr.1 ++ "_atlas") = false) →
      (mainManifest m0 results).filter (fun q => p q.1)
        = m0.filter (fun q => p q.1)) ∧
    (∀ c : String,
      mainManifest m0 ((c, (none : Option V)) :: results)
        = mainManifest m0 results) :=
  ⟨fun k h => mainManifest_lookup k results m0 h,
   fun p h => mainManifest_filter p results m0 h,
   fun _ => rfl⟩

theorem manifest_merge_preserves_unrelated_keys_witness :
    List.lookup "walls_atlas"
        (mainManifest [("x", 1), ("objects_atlas", 2), ("walls_atlas", 3)]
          [("objects", some 9), ("walls", none), ("inventory", some 4)])
      = List.lookup "walls_atlas"
          [("x", 1), ("objects_atlas", 2), ("walls_atlas", 3)] :=
  (manifest_merge_preserves_unrelated_keys Nat
      [("x", 1), ("objects_atlas", 2), ("walls_atlas", 3)]
      [("objects", some 9), ("walls", none), ("inventory", some 4)]).1
    "walls_atlas" (by decide)

end PackAtlases
